import Mathlib

/-!
Shallow embedding of `src/Retrospective/NPNM.py` (nonparametric normative
modeling script).  Machine floats are modelled as exact rationals extended
with NaN and signed infinities; pandas columns are Lean lists; the
statsmodels WLS solver is modelled twice, once as an abstract fallible
oracle (for the control-flow claims about the try/except block) and once by
its documented least-squares formulas over rationals (for the claims about
the fitted quantities).
-/

namespace NPNM

/-- Scalar value of a float64 cell: NaN, plus or minus infinity, or a finite
value modelled as an exact rational. -/
inductive Val where
  | nan : Val
  | pinf : Val
  | ninf : Val
  | fin : ℚ → Val
deriving DecidableEq, Repr

/-- IEEE-style subtraction on scalar values (signed zeros are irrelevant for
the quantities this script compares, so they are not modelled). -/
def Val.sub : Val → Val → Val
  | nan, _ => nan
  | _, nan => nan
  | fin a, fin b => fin (a - b)
  | pinf, pinf => nan
  | ninf, ninf => nan
  | pinf, _ => pinf
  | ninf, _ => ninf
  | fin _, pinf => ninf
  | fin _, ninf => pinf

/-- IEEE-style division on scalar values: division of a nonzero finite value
by zero gives a signed infinity (numpy emits a RuntimeWarning, not an
exception), 0/0 gives NaN, and NaN propagates. -/
def Val.div : Val → Val → Val
  | nan, _ => nan
  | _, nan => nan
  | fin a, fin b =>
      if b = 0 then (if a = 0 then nan else if 0 < a then pinf else ninf)
      else fin (a / b)
  | pinf, fin b => if b < 0 then ninf else pinf
  | ninf, fin b => if b < 0 then pinf else ninf
  | fin _, pinf => fin 0
  | fin _, ninf => fin 0
  | pinf, pinf => nan
  | pinf, ninf => nan
  | ninf, pinf => nan
  | ninf, ninf => nan

/-- Comparison `v <= c` against a finite threshold; any comparison with NaN
is false, as in IEEE floats. -/
def Val.leQ : Val → ℚ → Bool
  | nan, _ => false
  | pinf, _ => false
  | ninf, _ => true
  | fin a, c => decide (a ≤ c)

/-- Comparison `v > c` against a finite threshold; any comparison with NaN
is false, as in IEEE floats. -/
def Val.gtQ : Val → ℚ → Bool
  | nan, _ => false
  | pinf, _ => true
  | ninf, _ => false
  | fin a, c => decide (c < a)

/-- Lift a possibly missing rational to a scalar (missing becomes NaN). -/
def valOfOpt : Option ℚ → Val
  | none => Val.nan
  | some q => Val.fin q

/-- Rank cascade of NPNM.py lines 81 to 85: five masked assignments applied
in order to the nmodel value; a later matching mask overwrites an earlier
one, and a row matched by no mask keeps an undefined rank (the column is
created filled with NaN, modelled as `none`). -/
def rankCascade (v : Val) : Option Int :=
  let r0 : Option Int := none
  let r1 := if v.leQ (-2) then some (-2) else r0
  let r2 := if v.gtQ (-2) && v.leQ (-1) then some (-1) else r1
  let r3 := if v.gtQ (-1) && v.leQ 1 then some 0 else r2
  let r4 := if v.gtQ 1 && v.leQ 2 then some 1 else r3
  if v.gtQ 2 then some 2 else r4

/-- Grid spacing of NPNM.py line 33: `griddef_age = 360 / 2`, half of a
360-day year with ages in days. -/
def griddef_age : ℚ := 360 / 2

/-- Kernel half width of NPNM.py line 34: `kernel_age = griddef_age * 5`. -/
def kernel_age : ℚ := griddef_age * 5

/-- Model of `numpy.arange a b step` for a positive rational step: the
values `a + k * step` for `0 <= k < ceil ((b - a) / step)`. -/
def arange (a b step : ℚ) : List ℚ :=
  (List.range (Int.toNat (Int.ceil ((b - a) / step)))).map
    (fun (k : ℕ) => a + (k : ℚ) * step)

/-- Minimum of a nonempty list given as head and tail (model of `np.min`). -/
def listMin2 : ℚ → List ℚ → ℚ
  | a, [] => a
  | a, b :: l => min a (listMin2 b l)

/-- Maximum of a nonempty list given as head and tail (model of `np.max`). -/
def listMax2 : ℚ → List ℚ → ℚ
  | a, [] => a
  | a, b :: l => max a (listMax2 b l)

/-- Model of `numpy.argmin`: index of the first occurrence of the minimum
value of the list (numpy documents that the first occurrence is returned).
On the empty list numpy raises; the value 0 returned here is never used
under the nonemptiness hypotheses of the theorems below. -/
def argmin : List ℚ → Nat
  | [] => 0
  | [_] => 0
  | a :: b :: l => if a ≤ listMin2 b l then 0 else argmin (b :: l) + 1

theorem listMin2_le_head (a : ℚ) (l : List ℚ) : listMin2 a l ≤ a := by
  cases l with
  | nil => exact le_refl a
  | cons b t => exact min_le_left _ _

theorem listMin2_le_mem (a : ℚ) (l : List ℚ) :
    ∀ y ∈ l, listMin2 a l ≤ y := by
  induction l generalizing a with
  | nil => intro y hy; cases hy
  | cons b t ih =>
    intro y hy
    rcases List.mem_cons.mp hy with h | h
    · subst h
      exact le_trans (min_le_right _ _) (listMin2_le_head _ _)
    · exact le_trans (min_le_right _ _) (ih b y h)

theorem listMin2_le_of_mem_cons (a : ℚ) (l : List ℚ) :
    ∀ y ∈ a :: l, listMin2 a l ≤ y := by
  intro y hy
  rcases List.mem_cons.mp hy with h | h
  · subst h; exact listMin2_le_head _ _
  · exact listMin2_le_mem a l y h

theorem argmin_lt_length (a : ℚ) (l : List ℚ) :
    argmin (a :: l) < (a :: l).length := by
  induction l generalizing a with
  | nil => simp [argmin]
  | cons b t ih =>
    by_cases h : a ≤ listMin2 b t
    · simp [argmin, h]
    · simp only [argmin, if_neg h, List.length_cons]
      exact Nat.succ_lt_succ (ih b)

theorem argmin_get_eq_min (a : ℚ) (l : List ℚ)
    (h : argmin (a :: l) < (a :: l).length) :
    (a :: l).get ⟨argmin (a :: l), h⟩ = listMin2 a l := by
  induction l generalizing a with
  | nil => simp [argmin, listMin2]
  | cons b t ih =>
    by_cases hle : a ≤ listMin2 b t
    · simp [argmin, hle, listMin2, min_eq_left hle]
    · have hlt : listMin2 b t < a := lt_of_not_le hle
      have harg : argmin (a :: b :: t) = argmin (b :: t) + 1 := by
        simp [argmin, hle]
      have hb : argmin (b :: t) < (b :: t).length := argmin_lt_length b t
      have hget : (a :: b :: t).get ⟨argmin (b :: t) + 1, by
          simpa using Nat.succ_lt_succ hb⟩ =
          (b :: t).get ⟨argmin (b :: t), hb⟩ := rfl
      rw [show (⟨argmin (a :: b :: t), h⟩ :
            Fin (a :: b :: t).length) = ⟨argmin (b :: t) + 1, by
            simpa using Nat.succ_lt_succ hb⟩ from Fin.ext harg]
      rw [hget, ih b hb]
      simp [listMin2, min_eq_right (le_of_lt hlt)]

theorem argmin_is_min (a : ℚ) (l : List ℚ) (j : Nat)
    (hj : j < (a :: l).length) :
    (a :: l).get ⟨argmin (a :: l), argmin_lt_length a l⟩ ≤
      (a :: l).get ⟨j, hj⟩ := by
  rw [argmin_get_eq_min]
  exact listMin2_le_of_mem_cons a l _ (List.get_mem _ _ _)

theorem argmin_strict_before (a : ℚ) (l : List ℚ) (j : Nat)
    (hj : j < argmin (a :: l)) :
    (a :: l).get ⟨argmin (a :: l), argmin_lt_length a l⟩ <
      (a :: l).get ⟨j, lt_trans hj (argmin_lt_length a l)⟩ := by
  induction l generalizing a j with
  | nil => simp [argmin] at hj
  | cons b t ih =>
    by_cases hle : a ≤ listMin2 b t
    · simp [argmin, hle] at hj
    · have hlt : listMin2 b t < a := lt_of_not_le hle
      have harg : argmin (a :: b :: t) = argmin (b :: t) + 1 := by
        simp [argmin, hle]
      have hb : argmin (b :: t) < (b :: t).length := argmin_lt_length b t
      have hmin : (a :: b :: t).get
          ⟨argmin (a :: b :: t), argmin_lt_length a (b :: t)⟩ =
          listMin2 b t := by
        rw [argmin_get_eq_min]
        simp [listMin2, min_eq_right (le_of_lt hlt)]
      rw [hmin]
      match j with
      | 0 => exact hlt
      | j' + 1 =>
        have hj' : j' < argmin (b :: t) := by omega
        have := ih b j' hj'
        rw [argmin_get_eq_min] at this
        exact this

/-- Input row of phenotypes.csv: an age (always present, numeric), a score
(possibly missing) and the control flag `ctr`. -/
structure Row where
  age : ℚ
  score : Option ℚ
  ctr : Bool
deriving DecidableEq, Repr

/-- Minimum of the age column, `np.min(data.loc[:, 'age'])` (line 27); the
value at the empty table is junk, np.min raises there. -/
def dataMinAge (t : List Row) : ℚ :=
  match t.map Row.age with
  | [] => 0
  | a :: l => listMin2 a l

/-- Maximum of the age column, `np.max(data.loc[:, 'age'])` (line 28). -/
def dataMaxAge (t : List Row) : ℚ :=
  match t.map Row.age with
  | [] => 0
  | a :: l => listMax2 a l

/-- Age grid of line 35: `x = np.arange(min_age, max_age + kernel_age,
griddef_age)`. -/
def ageGrid (t : List Row) : List ℚ :=
  arange (dataMinAge t) (dataMaxAge t + kernel_age) griddef_age

/-- Model of `np.nanmean` on a column: mean of the present entries, or NaN
(`none`) when every entry is missing. -/
def nanmean (xs : List (Option ℚ)) : Option ℚ :=
  let vs := xs.filterMap id
  if vs.length = 0 then none else some (vs.sum / (vs.length : ℚ))

/-- Model of the square of `np.nanstd` on a column (population variance of
the present entries, ddof 0); 0 at an all-missing column, a case the
theorems below exclude. -/
def nanvarD (xs : List (Option ℚ)) : ℚ :=
  let vs := xs.filterMap id
  let m := vs.sum / (vs.length : ℚ)
  ((vs.map fun v => (v - m) ^ 2).sum) / (vs.length : ℚ)

/-- Global normalization of line 24, parameterized by the value `s` of
`np.nanstd` of the column (so that everything stays rational; the theorems
instantiate `s` with the nonnegative square root of `nanvarD`): every
present value `v` becomes `(v - nanmean) / s`, missing values stay missing.
When every entry is missing the column is unchanged (each entry is already
missing, and NaN minus NaN stays NaN). -/
def normScore (xs : List (Option ℚ)) (s : ℚ) : List (Option ℚ) :=
  match nanmean xs with
  | none => xs
  | some m => xs.map (Option.map fun v => (v - m) / s)

/-- Kernel weight of line 49: `w = (abs(d - mu) < kernel_age) * 1.`. -/
def kernelWeight (a xx : ℚ) : ℚ :=
  if |a - xx| < kernel_age then 1 else 0

/-- Control rows whose kernel weight is nonzero at grid age `xx`: pairs of
age and possibly-missing score with `|age - xx| < kernel_age`. -/
def windowRows (sel : List (ℚ × Option ℚ)) (xx : ℚ) : List (ℚ × Option ℚ) :=
  sel.filter (fun p => |p.1 - xx| < kernel_age)

/-- Row indices of the nonzero entries of the weight array, in increasing
order, starting the count at `k`. -/
def windowIdxAux (xx : ℚ) : Nat → List (ℚ × Option ℚ) → List Nat
  | _, [] => []
  | k, p :: l =>
    if |p.1 - xx| < kernel_age then k :: windowIdxAux xx (k + 1) l
    else windowIdxAux xx (k + 1) l

/-- Row indices of the in-window control rows (the nonzero rows of `w`). -/
def windowIdx (sel : List (ℚ × Option ℚ)) (xx : ℚ) : List Nat :=
  windowIdxAux xx 0 sel

/-- The index array `idx = np.argwhere(w).flatten()` of line 50.  Because
`d = sel[:, :1]` (line 39) is a two-dimensional `(n, 1)` array, so is `w`,
and `np.argwhere` on it returns the pairs `[i, 0]` for each nonzero row i;
flattening therefore interleaves every in-window row index with a copy of
the index 0. -/
def idxFlat (sel : List (ℚ × Option ℚ)) (xx : ℚ) : List Nat :=
  (windowIdx sel xx).flatMap (fun i => [i, 0])

/-- Regression data `YY = sel[idx, 1]`, `XX = sel[idx, 0] - mu` of lines 51
and 52, centered at `xx`: the rows of `sel` at the interleaved indices, so
every in-window row is followed by a copy of the first control row, whether
or not that row is inside the window.  Scores may still be missing here;
the solver drops them itself via `missing='drop'`. -/
def fitRows (sel : List (ℚ × Option ℚ)) (xx : ℚ) : List (ℚ × Option ℚ) :=
  (idxFlat sel xx).map
    (fun i => ((sel.getD i (0, none)).1 - xx, (sel.getD i (0, none)).2))

/-- Effective regression rows at grid age `xx`: the interleaved centered
rows after `missing='drop'` has removed those with a missing score. -/
def usedRows (sel : List (ℚ × Option ℚ)) (xx : ℚ) : List (ℚ × ℚ) :=
  (fitRows sel xx).filterMap (fun p => p.2.map (fun sc => (p.1, sc)))

/-- Rows the spec and the claims describe as being fitted: only the
in-window rows, centered, with missing scores dropped.  This is the
claim-side reference; the code actually fits `usedRows`, which also holds
the interleaved copies of the first control row. -/
def specWindowRows (sel : List (ℚ × Option ℚ)) (xx : ℚ) : List (ℚ × ℚ) :=
  (windowRows sel xx).filterMap (fun p => p.2.map (fun sc => (p.1 - xx, sc)))

/-- Weighted sum of `f` over rows, with one weight per row. -/
def wsum (w : List ℚ) (f : ℚ × ℚ → ℚ) (rows : List (ℚ × ℚ)) : ℚ :=
  ((w.zip rows).map (fun p => p.1 * f p.2)).sum

/-- Sufficient statistics of a simple linear fit of y on a constant and x:
intercept, slope, residual mean square, and the entries of the normal
matrix needed for the covariance of the estimates. -/
structure FitStats where
  b0 : ℚ
  b1 : ℚ
  mse : Val
  sw : ℚ
  sx : ℚ
  sxx : ℚ
  det : ℚ
deriving DecidableEq, Repr

/-- Weighted least squares fit of y on `[1, x]`, modelled from the
documented statsmodels semantics: minimize the weighted sum of squared
residuals via the normal equations; `mse_resid` is the weighted residual
sum of squares over `nobs - 2` (the residual degrees of freedom of a
full-rank two-column design), which at zero degrees of freedom is the float
0.0/0.0 = NaN (exact fit) or ssr/0.0 = +inf, produced with only a runtime
warning, not an exception.  `none` marks a singular normal matrix, where
the real solver falls back to a pseudo-inverse; the claims settled with
this definition only concern grid points whose normal matrix is
invertible. -/
def wlsStats (w : List ℚ) (rows : List (ℚ × ℚ)) : Option FitStats :=
  let sw := wsum w (fun _ => 1) rows
  let sx := wsum w (fun p => p.1) rows
  let sxx := wsum w (fun p => p.1 * p.1) rows
  let sy := wsum w (fun p => p.2) rows
  let sxy := wsum w (fun p => p.1 * p.2) rows
  let det := sw * sxx - sx * sx
  if det = 0 then none
  else
    let b0 := (sxx * sy - sx * sxy) / det
    let b1 := (sw * sxy - sx * sy) / det
    let ssr : ℚ := wsum w (fun p => (p.2 - b0 - b1 * p.1) ^ 2) rows
    let df : ℚ := (rows.length : ℚ) - 2
    let mseV : Val :=
      if df = 0 then (if ssr = 0 then Val.nan else Val.pinf)
      else Val.fin (ssr / df)
    some ⟨b0, b1, mseV, sw, sx, sxx, det⟩

/-- Ordinary (unweighted) least squares fit of y on `[1, x]`, written
directly from the textbook formulas: the reference fit for the refinement
comparisons (both against the rows the claims describe and against the rows
the code actually uses). -/
def olsStats (rows : List (ℚ × ℚ)) : Option FitStats :=
  let sw := ((rows.map (fun _ => (1 : ℚ))).sum)
  let sx := ((rows.map (fun p => p.1)).sum)
  let sxx := ((rows.map (fun p => p.1 * p.1)).sum)
  let sy := ((rows.map (fun p => p.2)).sum)
  let sxy := ((rows.map (fun p => p.1 * p.2)).sum)
  let det := sw * sxx - sx * sx
  if det = 0 then none
  else
    let b0 := (sxx * sy - sx * sxy) / det
    let b1 := (sw * sxy - sx * sy) / det
    let ssr : ℚ := ((rows.map (fun p => (p.2 - b0 - b1 * p.1) ^ 2)).sum)
    let df : ℚ := (rows.length : ℚ) - 2
    let mseV : Val :=
      if df = 0 then (if ssr = 0 then Val.nan else Val.pinf)
      else Val.fin (ssr / df)
    some ⟨b0, b1, mseV, sw, sx, sxx, det⟩

/-- The fit actually performed by line 54: the keyword `weight=w[idx]` is
not the `weights` keyword of `sm.WLS`, so the solver runs with its default
unit weights, on the interleaved, missing-dropped rows `usedRows`. -/
def codeFit (sel : List (ℚ × Option ℚ)) (xx : ℚ) : Option FitStats :=
  wlsStats (List.replicate (usedRows sel xx).length 1) (usedRows sel xx)

/-- Variance of the prediction of a new observation at the design row
`[c, xv]`, per the formula used by `wls_prediction_std`: residual mean
square plus the quadratic form of the row in the covariance of the
estimates, `mse * (row (X'X)^-1 row')`.  A NaN residual mean square
propagates to NaN; an infinite one meets zero design entries inside the
covariance quadratic form and the float sum is again NaN. -/
def predVarAt (f : FitStats) (c xv : ℚ) : Val :=
  match f.mse with
  | Val.fin m =>
      Val.fin (m + m * (c * c * f.sxx - 2 * c * xv * f.sx + xv * xv * f.sw)
        / f.det)
  | _ => Val.nan

/-- Squared standard error of the intercept estimate,
`mse * ((X'X)^-1)[0,0]`; NaN or infinite residual mean square propagates
to NaN as in `predVarAt`. -/
def varB0 (f : FitStats) : Val :=
  match f.mse with
  | Val.fin m => Val.fin (m * f.sxx / f.det)
  | _ => Val.nan

/-- Two-sided confidence interval of the intercept term,
`mod.conf_int()[0, :]`, represented exactly as its center (the intercept)
and its squared half width per squared t quantile: the interval is
`b0 - t * sqrt(varB0), b0 + t * sqrt(varB0)`. -/
def confIntB0 (f : FitStats) : ℚ × Val := (f.b0, varB0 f)

/-- Local mean stored at a grid age, `zm[i] = mod.params[0]` (line 58). -/
def zmOf (sel : List (ℚ × Option ℚ)) (xx : ℚ) : Option ℚ :=
  (codeFit sel xx).map FitStats.b0

/-- Square of the local standard error stored at a grid age: the code calls
`wls_prediction_std(mod, [0, 0])` (line 59), the prediction variance at the
all-zero design row. -/
def zstdSqOf (sel : List (ℚ × Option ℚ)) (xx : ℚ) : Option Val :=
  (codeFit sel xx).map (fun f => predVarAt f 0 0)

/-- Confidence pair stored at a grid age, `zci[i, :] = mod.conf_int()[0, :]`
(line 60), in the center and squared-half-width representation. -/
def zciOf (sel : List (ℚ × Option ℚ)) (xx : ℚ) : Option (ℚ × Val) :=
  (codeFit sel xx).map confIntB0

/-- Abstract result of `sm.WLS(...).fit()`: the only field the script reads
directly is `params[0]`, a float that may itself be NaN. -/
structure ModRes where
  param0 : Val
deriving DecidableEq, Repr

/-- The three fallible external calls inside the try block, as an oracle:
`sm.WLS(...).fit()` on the interleaved centered rows (which may raise, for
example on an empty window), `wls_prediction_std(mod, [0, 0])`, and
`mod.conf_int()[0, :]`.  Each call may raise (`Except.error`), and a
SUCCESSFUL call may return NaN values — as `wls_prediction_std` and
`conf_int` do, with only a runtime warning, when the residual degrees of
freedom are zero — so success payloads are scalar values, not plain
rationals. -/
structure WlsOracle where
  fit : List (ℚ × Option ℚ) → Except Unit ModRes
  predStd : ModRes → Except Unit Val
  confInt : ModRes → Except Unit (Val × Val)

/-- Reference curve entry at one grid age: the slots `zm[i]`, `zstd[i]`,
`zci[i, 0]`, `zci[i, 1]`. -/
structure RefPoint where
  zm : Val
  zstd : Val
  zciL : Val
  zciH : Val
deriving DecidableEq, Repr

/-- The all-NaN entry written by the except branch (lines 63 to 65). -/
def nanPoint : RefPoint := ⟨Val.nan, Val.nan, Val.nan, Val.nan⟩

/-- Initial entry from the `np.zeros` allocations (lines 42 to 44). -/
def zeroPoint : RefPoint := ⟨Val.fin 0, Val.fin 0, Val.fin 0, Val.fin 0⟩

/-- One iteration of the LOESS loop body (lines 53 to 65): run the fit; on
success store the intercept, then call the prediction-std helper, then the
confidence interval, storing as the code does; if any of the three calls
raises, the except branch overwrites all three slots with NaN — including
the already stored intercept. -/
def gridPointRun (o : WlsOracle) (rows : List (ℚ × Option ℚ))
    (init : RefPoint) : RefPoint :=
  match o.fit rows with
  | Except.error _ => nanPoint
  | Except.ok mod =>
    let s1 : RefPoint := { init with zm := mod.param0 }
    match o.predStd mod with
    | Except.error _ => nanPoint
    | Except.ok prstd =>
      match o.confInt mod with
      | Except.error _ => nanPoint
      | Except.ok ci =>
        { s1 with zciL := ci.1, zciH := ci.2, zstd := prstd }

/-- The whole LOESS loop (lines 47 to 65): one `RefPoint` per grid age. -/
def refCurve (o : WlsOracle) (sel : List (ℚ × Option ℚ)) (x : List ℚ) :
    List RefPoint :=
  x.map (fun xx => gridPointRun o (fitRows sel xx) zeroPoint)

/-- Grid index chosen by line 70, `np.argmin(np.abs(r['age'] - x))`. -/
def nearestIdx (x : List ℚ) (age : ℚ) : Nat :=
  argmin (x.map fun xj => |age - xj|)

/-- The scorer of lines 68 to 74: nearest grid index by absolute age
difference, then `(score - zm[idage]) / zstd[idage]` in float semantics. -/
def normative_model (x : List ℚ) (zm zstd : List Val) (age : ℚ)
    (score : Val) : Val :=
  let idage := nearestIdx x age
  Val.div (Val.sub score (zm.getD idage Val.nan)) (zstd.getD idage Val.nan)

/-- Output row of phenotypes_npnm.csv: the three original columns (with
`score` holding whatever line 24 left there) plus the derived `nmodel` and
`rank` columns. -/
structure OutRow where
  age : ℚ
  score : Option ℚ
  ctr : Bool
  nmodel : Val
  rank : Option Int
deriving DecidableEq, Repr

/-- Line 24 applied to the whole table: the score column is overwritten in
place with its globally normalized values; age and ctr are untouched. -/
def normTable (t : List Row) (s : ℚ) : List Row :=
  (t.zip (normScore (t.map Row.score) s)).map
    (fun p => { p.1 with score := p.2 })

/-- Line 38: the (age, score) pairs of the control rows, taken after the
in-place normalization of the score column. -/
def ctrSel (t1 : List Row) : List (ℚ × Option ℚ) :=
  (t1.filter Row.ctr).map (fun r => (r.age, r.score))

/-- Lines 78 to 85 for one row: the three original columns unchanged, plus
the nmodel column from the scorer and the rank column from the cascade. -/
def scoreRow (x : List ℚ) (zms zstds : List Val) (r : Row) : OutRow :=
  let nm := normative_model x zms zstds r.age (valOfOpt r.score)
  ⟨r.age, r.score, r.ctr, nm, rankCascade nm⟩

/-- The whole script as a function of the input table, the value `s` of
`np.nanstd` of the raw score column, and the solver oracle: normalize the
score column in place (line 24), build the age grid (lines 27 to 35),
select the control rows (line 38), run the LOESS loop, apply the scorer to
every row (line 78) and the rank cascade (lines 81 to 85). -/
def pipeline (o : WlsOracle) (s : ℚ) (t : List Row) : List OutRow :=
  let t1 := normTable t s
  let x := ageGrid t1
  let curve := refCurve o (ctrSel t1) x
  t1.map (scoreRow x (curve.map RefPoint.zm) (curve.map RefPoint.zstd))

theorem getD_eq_get {α : Type} (l : List α) (d : α) (i : Nat)
    (h : i < l.length) : l.getD i d = l.get ⟨i, h⟩ := by
  rw [List.getD_eq_getElem?_getD, List.getElem?_eq_getElem h,
    List.get_eq_getElem]
  rfl

theorem arange_length (a b s : ℚ) :
    (arange a b s).length = Int.toNat (Int.ceil ((b - a) / s)) := by
  unfold arange
  rw [List.length_map, List.length_range]

theorem arange_get (a b s : ℚ) (i : Nat) (h : i < (arange a b s).length) :
    (arange a b s).get ⟨i, h⟩ = a + (i : ℚ) * s := by
  unfold arange at h ⊢
  rw [List.get_eq_getElem, List.getElem_map, List.getElem_range]

theorem arange_sorted (a b s : ℚ) (hs : 0 < s) :
    List.Pairwise (· < ·) (arange a b s) := by
  unfold arange
  refine List.Pairwise.map _ ?_ (List.pairwise_lt_range _)
  intro k1 k2 hk
  have hc : (k1 : ℚ) < (k2 : ℚ) := by exact_mod_cast hk
  have := mul_lt_mul_of_pos_right hc hs
  linarith

theorem arange_mem_bounds (a b s y : ℚ) (hs : 0 < s) (hy : y ∈ arange a b s) :
    a ≤ y ∧ y < b := by
  unfold arange at hy
  rcases List.mem_map.mp hy with ⟨k, hk, rfl⟩
  have hk1 : k < Int.toNat (Int.ceil ((b - a) / s)) := List.mem_range.mp hk
  constructor
  · have hn : (0 : ℚ) ≤ (k : ℚ) * s :=
      mul_nonneg (Nat.cast_nonneg k) (le_of_lt hs)
    linarith
  · have h1 : ((k : ℕ) : ℤ) < Int.ceil ((b - a) / s) := Int.lt_toNat.mp hk1
    have h2 : (((k : ℕ) : ℤ) : ℚ) < (b - a) / s := Int.lt_ceil.mp h1
    have h3 : (k : ℚ) * s < b - a := by
      rw [lt_div_iff₀ hs] at h2
      exact_mod_cast h2
    linarith

theorem griddef_age_pos : (0 : ℚ) < griddef_age := by
  norm_num [griddef_age]

theorem kernel_age_pos : (0 : ℚ) < kernel_age := by
  norm_num [kernel_age, griddef_age]

theorem le_listMax2_head (a : ℚ) (l : List ℚ) : a ≤ listMax2 a l := by
  cases l with
  | nil => exact le_refl a
  | cons b t => exact le_max_left _ _

theorem min2_le_max2 (a : ℚ) (l : List ℚ) : listMin2 a l ≤ listMax2 a l :=
  le_trans (listMin2_le_head a l) (le_listMax2_head a l)

theorem dataMin_le_dataMax (t : List Row) (ht : t ≠ []) :
    dataMinAge t ≤ dataMaxAge t := by
  obtain ⟨r, t', rfl⟩ := List.exists_cons_of_ne_nil ht
  simpa [dataMinAge, dataMaxAge] using
    min2_le_max2 r.age (t'.map Row.age)

theorem ageGrid_ne_nil (t : List Row) (ht : t ≠ []) : ageGrid t ≠ [] := by
  have hmm : dataMinAge t ≤ dataMaxAge t := dataMin_le_dataMax t ht
  have hq : (0 : ℚ) <
      (dataMaxAge t + kernel_age - dataMinAge t) / griddef_age := by
    apply div_pos
    · have := kernel_age_pos
      linarith
    · exact griddef_age_pos
  have hceil : 0 < Int.ceil
      ((dataMaxAge t + kernel_age - dataMinAge t) / griddef_age) :=
    Int.ceil_pos.mpr hq
  have hlen : 0 < (ageGrid t).length := by
    rw [ageGrid, arange_length]
    exact Int.lt_toNat.mpr (by exact_mod_cast hceil)
  exact List.length_pos.mp hlen

theorem nearestIdx_lt_length (x : List ℚ) (age : ℚ) (hx : x ≠ []) :
    nearestIdx x age < x.length := by
  obtain ⟨a, l, rfl⟩ := List.exists_cons_of_ne_nil hx
  have h := argmin_lt_length (|age - a|) (l.map fun xj => |age - xj|)
  simpa [nearestIdx] using h

theorem nearestIdx_min (x : List ℚ) (age : ℚ) (hx : x ≠ []) (j : Nat)
    (hj : j < x.length) :
    |age - x.get ⟨nearestIdx x age, nearestIdx_lt_length x age hx⟩| ≤
      |age - x.get ⟨j, hj⟩| := by
  obtain ⟨a, l, rfl⟩ := List.exists_cons_of_ne_nil hx
  have hj2 : j < ((a :: l).map fun xj => |age - xj|).length := by
    simpa using hj
  have h := argmin_is_min (|age - a|) (l.map fun xj => |age - xj|) j hj2
  simp only [nearestIdx, List.get_eq_getElem] at h ⊢
  have e : ((a :: l).map fun xj => |age - xj|) =
      |age - a| :: (l.map fun xj => |age - xj|) := rfl
  simp only [← e, List.getElem_map] at h
  exact h

theorem nearestIdx_first (x : List ℚ) (age : ℚ) (hx : x ≠ []) (j : Nat)
    (hj : j < nearestIdx x age) :
    |age - x.get ⟨nearestIdx x age, nearestIdx_lt_length x age hx⟩| <
      |age - x.get ⟨j, lt_trans hj (nearestIdx_lt_length x age hx)⟩| := by
  obtain ⟨a, l, rfl⟩ := List.exists_cons_of_ne_nil hx
  have hj' : j < argmin ((a :: l).map fun xj => |age - xj|) := by
    simpa [nearestIdx] using hj
  have h := argmin_strict_before (|age - a|) (l.map fun xj => |age - xj|)
    j hj'
  simp only [nearestIdx, List.get_eq_getElem] at h ⊢
  have e : ((a :: l).map fun xj => |age - xj|) =
      |age - a| :: (l.map fun xj => |age - xj|) := rfl
  simp only [← e, List.getElem_map] at h
  exact h

theorem nearestIdx_zero (x : List ℚ) (age : ℚ) (hx : x ≠ [])
    (hs : List.Pairwise (· < ·) x)
    (h0 : age ≤ x.get ⟨0, List.length_pos.mpr hx⟩) :
    nearestIdx x age = 0 := by
  by_contra hne
  have hk := nearestIdx_lt_length x age hx
  have hpos : 0 < nearestIdx x age := Nat.pos_of_ne_zero hne
  have hstrict := nearestIdx_first x age hx 0 hpos
  have hx0k : x.get ⟨0, List.length_pos.mpr hx⟩ <
      x.get ⟨nearestIdx x age, hk⟩ :=
    List.pairwise_iff_get.mp hs ⟨0, List.length_pos.mpr hx⟩
      ⟨nearestIdx x age, hk⟩ hpos
  have e0 : |age - x.get ⟨0, List.length_pos.mpr hx⟩| =
      x.get ⟨0, List.length_pos.mpr hx⟩ - age := by
    rw [abs_of_nonpos (by linarith)]
    ring
  have ek : |age - x.get ⟨nearestIdx x age, hk⟩| =
      x.get ⟨nearestIdx x age, hk⟩ - age := by
    rw [abs_of_nonpos (by linarith)]
    ring
  rw [ek, e0] at hstrict
  linarith

theorem nearestIdx_last (x : List ℚ) (age : ℚ) (hx : x ≠ [])
    (hs : List.Pairwise (· < ·) x)
    (hlen : x.length - 1 < x.length)
    (hL : x.get ⟨x.length - 1, hlen⟩ ≤ age) :
    nearestIdx x age = x.length - 1 := by
  by_contra hne
  have hk := nearestIdx_lt_length x age hx
  have hklt : nearestIdx x age < x.length - 1 := by omega
  have hmin := nearestIdx_min x age hx (x.length - 1) hlen
  have hord : x.get ⟨nearestIdx x age, hk⟩ < x.get ⟨x.length - 1, hlen⟩ :=
    List.pairwise_iff_get.mp hs ⟨nearestIdx x age, hk⟩
      ⟨x.length - 1, hlen⟩ hklt
  have ek : |age - x.get ⟨nearestIdx x age, hk⟩| =
      age - x.get ⟨nearestIdx x age, hk⟩ :=
    abs_of_nonneg (by linarith)
  have eL : |age - x.get ⟨x.length - 1, hlen⟩| =
      age - x.get ⟨x.length - 1, hlen⟩ :=
    abs_of_nonneg (by linarith)
  rw [ek, eL] at hmin
  linarith

/-- Invariants asserted of the age grid of a table: strictly increasing,
consecutive entries differing by exactly the grid step, every entry inside
the half-open span from the minimum age to the maximum age plus the kernel
half width, the kernel half width five times the grid step, and the grid
step half of a 360-day year. -/
def gridSpec (t : List Row) : Prop :=
    List.Pairwise (· < ·) (ageGrid t)
  ∧ (∀ i, i + 1 < (ageGrid t).length →
      (ageGrid t).getD (i + 1) 0 = (ageGrid t).getD i 0 + griddef_age)
  ∧ (∀ a ∈ ageGrid t, dataMinAge t ≤ a ∧ a < dataMaxAge t + kernel_age)
  ∧ kernel_age = 5 * griddef_age
  ∧ griddef_age = 360 / 2

/-- C7: the age grid is the evenly spaced `np.arange` sequence from
`min_age` to `max_age + kernel_age` in steps of `griddef_age`: it is
strictly increasing, consecutive entries differ by exactly `griddef_age`,
every entry lies in the half-open span, the kernel half width is five times
the grid step, and the grid step is half of a 360-day year. -/
theorem C7_age_grid (t : List Row) : gridSpec t := by
  unfold gridSpec
  refine ⟨arange_sorted _ _ _ griddef_age_pos, ?_, ?_,
    by rw [kernel_age]; ring, rfl⟩
  · intro i hi
    have hi' : i < (ageGrid t).length := by omega
    rw [getD_eq_get _ _ _ hi, getD_eq_get _ _ _ hi']
    unfold ageGrid at hi hi' ⊢
    rw [arange_get, arange_get]
    push_cast
    ring
  · intro a ha
    exact arange_mem_bounds _ _ _ _ griddef_age_pos ha

/-- Properties asserted of the scorer index of a subject of a given age:
the grid is nonempty, the index is in range, it minimizes the absolute age
difference with the earliest index on exact ties, an age at or below the
grid minimum resolves to index 0, and an age at or beyond the last grid age
resolves to the last index. -/
def scorerSpec (t : List Row) (age : ℚ) : Prop :=
    ageGrid t ≠ []
  ∧ nearestIdx (ageGrid t) age < (ageGrid t).length
  ∧ (∀ j, j < (ageGrid t).length →
      |age - (ageGrid t).getD (nearestIdx (ageGrid t) age) 0| ≤
        |age - (ageGrid t).getD j 0|)
  ∧ (∀ j, j < nearestIdx (ageGrid t) age →
      |age - (ageGrid t).getD (nearestIdx (ageGrid t) age) 0| <
        |age - (ageGrid t).getD j 0|)
  ∧ (age ≤ dataMinAge t → nearestIdx (ageGrid t) age = 0)
  ∧ ((ageGrid t).getD ((ageGrid t).length - 1) 0 ≤ age →
      nearestIdx (ageGrid t) age = (ageGrid t).length - 1)

/-- C3: for every subject age, the scorer index is a valid index of the age
grid that minimizes the absolute age difference, with the earliest index on
exact ties; ages at or below the grid minimum resolve to index 0 and ages
at or beyond the last grid age resolve to the last index, so the lookup
never goes out of range. -/
theorem C3_subject_scorer (t : List Row) (age : ℚ) (ht : t ≠ []) :
    scorerSpec t age := by
  unfold scorerSpec
  have hx : ageGrid t ≠ [] := ageGrid_ne_nil t ht
  have hk := nearestIdx_lt_length (ageGrid t) age hx
  refine ⟨hx, hk, ?_, ?_, ?_, ?_⟩
  · intro j hj
    rw [getD_eq_get _ _ _ hk, getD_eq_get _ _ _ hj]
    exact nearestIdx_min (ageGrid t) age hx j hj
  · intro j hj
    rw [getD_eq_get _ _ _ hk, getD_eq_get _ _ _ (lt_trans hj hk)]
    exact nearestIdx_first (ageGrid t) age hx j hj
  · intro hage
    apply nearestIdx_zero (ageGrid t) age hx (arange_sorted _ _ _ griddef_age_pos)
    have h0 : (ageGrid t).get ⟨0, List.length_pos.mpr hx⟩ = dataMinAge t := by
      unfold ageGrid
      rw [arange_get]
      push_cast
      ring
    rw [h0]
    exact hage
  · intro hage
    have hlen : (ageGrid t).length - 1 < (ageGrid t).length := by
      have := List.length_pos.mpr hx
      omega
    apply nearestIdx_last (ageGrid t) age hx
      (arange_sorted _ _ _ griddef_age_pos) hlen
    rw [getD_eq_get _ _ _ hlen] at hage
    exact hage

theorem Val.sub_nan (v : Val) : Val.sub v Val.nan = Val.nan := by
  cases v <;> rfl

theorem Val.nan_div (v : Val) : Val.div Val.nan v = Val.nan := by
  cases v <;> rfl

theorem Val.div_nan (v : Val) : Val.div v Val.nan = Val.nan := by
  cases v <;> rfl

theorem rankCascade_nan : rankCascade Val.nan = none := rfl

/-- C2: the rank cascade is a total deterministic function of the
standardized deviation alone: every finite value falls through the five
claimed threshold buckets (lower boundaries exclusive, upper inclusive,
except the bottom bucket which is a plain v at most minus two), NaN leaves
the rank undefined, and the four boundary examples of the spec evaluate as
claimed. -/
theorem C2_rank_classifier (q : ℚ) :
    rankCascade (Val.fin q) =
      some (if q ≤ -2 then -2 else if q ≤ -1 then -1
            else if q ≤ 1 then 0 else if q ≤ 2 then 1 else 2)
  ∧ rankCascade Val.nan = none
  ∧ rankCascade (Val.fin (-2)) = some (-2)
  ∧ rankCascade (Val.fin (-1999999 / 1000000)) = some (-1)
  ∧ rankCascade (Val.fin 2) = some 1
  ∧ rankCascade (Val.fin (2000001 / 1000000)) = some 2 := by
  refine ⟨?_, rfl, by norm_num [rankCascade, Val.leQ, Val.gtQ],
    by norm_num [rankCascade, Val.leQ, Val.gtQ],
    by norm_num [rankCascade, Val.leQ, Val.gtQ],
    by norm_num [rankCascade, Val.leQ, Val.gtQ]⟩
  rcases le_or_lt q (-2) with h1 | h1
  · have e1 : ¬(-2 : ℚ) < q := not_lt.mpr h1
    have e2 : q ≤ -1 := by linarith
    have e3 : ¬(-1 : ℚ) < q := not_lt.mpr (by linarith)
    have e4 : ¬(1 : ℚ) < q := not_lt.mpr (by linarith)
    have e5 : ¬(2 : ℚ) < q := not_lt.mpr (by linarith)
    simp [rankCascade, Val.leQ, Val.gtQ, h1, e1, e2, e3, e4, e5]
  · rcases le_or_lt q (-1) with h2 | h2
    · have e1 : ¬q ≤ -2 := not_le.mpr h1
      have e3 : ¬(-1 : ℚ) < q := not_lt.mpr h2
      have e4 : ¬(1 : ℚ) < q := not_lt.mpr (by linarith)
      have e5 : ¬(2 : ℚ) < q := not_lt.mpr (by linarith)
      simp [rankCascade, Val.leQ, Val.gtQ, h1, h2, e1, e3, e4, e5]
    · rcases le_or_lt q 1 with h3 | h3
      · have e1 : ¬q ≤ -2 := not_le.mpr (by linarith)
        have e2 : ¬q ≤ -1 := not_le.mpr h2
        have e4 : ¬(1 : ℚ) < q := not_lt.mpr h3
        have e5 : ¬(2 : ℚ) < q := not_lt.mpr (by linarith)
        simp [rankCascade, Val.leQ, Val.gtQ, h1, h2, h3, e1, e2, e4, e5]
      · rcases le_or_lt q 2 with h4 | h4
        · have e1 : ¬q ≤ -2 := not_le.mpr (by linarith)
          have e2 : ¬q ≤ -1 := not_le.mpr (by linarith)
          have e3 : ¬q ≤ 1 := not_le.mpr h3
          have e5 : ¬(2 : ℚ) < q := not_lt.mpr h4
          simp [rankCascade, Val.leQ, Val.gtQ, h1, h2, h3, h4, e1, e2, e3, e5]
        · have e1 : ¬q ≤ -2 := not_le.mpr (by linarith)
          have e2 : ¬q ≤ -1 := not_le.mpr (by linarith)
          have e3 : ¬q ≤ 1 := not_le.mpr (by linarith)
          have e4 : ¬q ≤ 2 := not_le.mpr h4
          simp [rankCascade, Val.leQ, Val.gtQ, h1, h2, h3, h4, e1, e2, e3, e4]

/-- Control flow of the try/except block at one grid point: whenever one of
the three calls raises — even after the intercept slot was already assigned
— the handler leaves the entry entirely NaN; when all three succeed the
four slots hold exactly the returned values, which may themselves be NaN
(they are when the residual degrees of freedom are zero), so a successful
pass can still leave a defined mean beside undefined standard error and
interval. -/
def handlerSpec (o : WlsOracle) (rows : List (ℚ × Option ℚ)) : Prop :=
    (o.fit rows = Except.error () →
      gridPointRun o rows zeroPoint = nanPoint)
  ∧ (∀ mod, o.fit rows = Except.ok mod →
      o.predStd mod = Except.error () →
      gridPointRun o rows zeroPoint = nanPoint)
  ∧ (∀ mod prstd, o.fit rows = Except.ok mod →
      o.predStd mod = Except.ok prstd →
      o.confInt mod = Except.error () →
      gridPointRun o rows zeroPoint = nanPoint)
  ∧ (∀ mod prstd ci, o.fit rows = Except.ok mod →
      o.predStd mod = Except.ok prstd →
      o.confInt mod = Except.ok ci →
      gridPointRun o rows zeroPoint =
        ⟨mod.param0, prstd, ci.1, ci.2⟩)

/-- C9 (amended): the except branch overwrites all three output slots
whenever any of the three calls raises, even after the intercept was
stored; when all three calls succeed, the entry holds exactly the returned
values.  The original all-or-nothing claim fails because those returned
values can themselves be NaN while the intercept is finite (zero residual
degrees of freedom), leaving a partially defined entry. -/
theorem C9_handler_overwrites (o : WlsOracle)
    (rows : List (ℚ × Option ℚ)) : handlerSpec o rows := by
  unfold handlerSpec
  refine ⟨?_, ?_, ?_, ?_⟩
  · intro hf
    simp [gridPointRun, hf]
  · intro mod hf hp
    simp [gridPointRun, hf, hp]
  · intro mod prstd hf hp hc
    simp [gridPointRun, hf, hp, hc]
  · intro mod prstd ci hf hp hc
    simp [gridPointRun, hf, hp, hc]

/-- Outcome asserted at a grid point whose fit call raises: the curve still
has one entry per grid age, the entry at that age is all NaN, and every
subject whose age resolves to that grid index receives a NaN standardized
deviation and an undefined rank. -/
def degenerateOutcome (o : WlsOracle) (sel : List (ℚ × Option ℚ))
    (x : List ℚ) (i : Nat) : Prop :=
  (refCurve o sel x).length = x.length
  ∧ (refCurve o sel x).getD i zeroPoint = nanPoint
  ∧ ∀ age score, nearestIdx x age = i →
      normative_model x ((refCurve o sel x).map RefPoint.zm)
        ((refCurve o sel x).map RefPoint.zstd) age score = Val.nan
      ∧ rankCascade (normative_model x
          ((refCurve o sel x).map RefPoint.zm)
          ((refCurve o sel x).map RefPoint.zstd) age score) = none

/-- C4 (amended): when the fit call raises at a grid point — as it does on
an empty kernel window — that entry of the reference curve becomes entirely
NaN, the loop still produces an entry for every grid age, and every subject
mapping to that grid index gets a NaN standardized deviation and an
undefined rank, never a numeric default.  The other two degeneracies the
original claim names do not behave this way: a singular design is fitted by
the pseudo-inverse without raising, and a fit with zero residual degrees of
freedom stores a finite local mean beside NaN standard error and
interval. -/
theorem C4_degenerate_fit (o : WlsOracle) (sel : List (ℚ × Option ℚ))
    (x : List ℚ) (i : Nat) (hi : i < x.length)
    (hdeg : o.fit (fitRows sel (x.getD i 0)) = Except.error ()) :
    degenerateOutcome o sel x i := by
  have hlen : (refCurve o sel x).length = x.length := List.length_map _ _
  have hi2 : i < (refCurve o sel x).length := by rw [hlen]; exact hi
  have hpt : (refCurve o sel x).get ⟨i, hi2⟩ = nanPoint := by
    unfold refCurve
    rw [List.get_eq_getElem, List.getElem_map]
    rw [getD_eq_get x 0 i hi, List.get_eq_getElem] at hdeg
    unfold gridPointRun
    rw [hdeg]
  refine ⟨hlen, ?_, ?_⟩
  · rw [getD_eq_get _ _ _ hi2]
    exact hpt
  · intro age score hnear
    have hi3 : i < ((refCurve o sel x).map RefPoint.zm).length := by
      rw [List.length_map]; exact hi2
    have hzm : ((refCurve o sel x).map RefPoint.zm).getD
        (nearestIdx x age) Val.nan = Val.nan := by
      rw [hnear, getD_eq_get _ _ _ hi3, List.get_eq_getElem,
        List.getElem_map]
      rw [List.get_eq_getElem] at hpt
      rw [hpt]
      rfl
    have hmodel : normative_model x ((refCurve o sel x).map RefPoint.zm)
        ((refCurve o sel x).map RefPoint.zstd) age score = Val.nan := by
      simp only [normative_model]
      rw [hzm, Val.sub_nan, Val.nan_div]
    exact ⟨hmodel, by rw [hmodel, rankCascade_nan]⟩

/-- Concrete oracle for the degenerate-fit witness: the fit raises exactly
on an empty design (as the real solver does on an empty window) and
otherwise succeeds with arbitrary values. -/
def oWit : WlsOracle :=
  ⟨fun rows =>
      if rows.isEmpty then Except.error () else Except.ok ⟨Val.fin 0⟩,
   fun _ => Except.ok (Val.fin 0),
   fun _ => Except.ok (Val.fin 0, Val.fin 0)⟩

theorem C4_degenerate_fit_witness :
    (0 < ([(0 : ℚ)]).length)
  ∧ oWit.fit (fitRows [] (([(0 : ℚ)]).getD 0 0)) = Except.error ()
  ∧ degenerateOutcome oWit [] [0] 0 :=
  ⟨by decide, rfl, C4_degenerate_fit oWit [] [0] 0 (by decide) rfl⟩

/-- The fit of the script at the control sample (2000, 5), (10, 1) and
grid age 10: the window holds only the second row, the flattened argwhere
interleaves the out-of-window first row, and the two distinct points are
fitted exactly — zero residual degrees of freedom, so the residual mean
square is the float 0.0/0.0 = NaN while the intercept is the finite 1. -/
theorem codeFitDf0_concrete :
    codeFit [((2000 : ℚ), some 5), (10, some 1)] 10 =
      some ⟨1, 2/995, Val.nan, 2, 1990, 3960100, 3960100⟩ := by
  norm_num [codeFit, wlsStats, usedRows, fitRows, idxFlat, windowIdx,
    windowIdxAux, wsum, kernel_age, griddef_age, List.filterMap_cons,
    List.flatMap_cons, List.zip_cons_cons, List.replicate_succ,
    List.getD_cons_succ, List.getD_cons_zero]

/-- Oracle realizing the zero-residual-degrees-of-freedom outcome of the
solver calls at the sample of `codeFitDf0_concrete`: the fit succeeds with
the finite intercept 1 (no exception), and `wls_prediction_std` and
`conf_int` succeed returning NaN, since the residual mean square is
0.0/0.0 = NaN (a runtime warning, not an exception). -/
def oPartial : WlsOracle :=
  ⟨fun _ => Except.ok ⟨Val.fin 1⟩,
   fun _ => Except.ok Val.nan,
   fun _ => Except.ok (Val.nan, Val.nan)⟩

/-- C4 counterexample: at a grid age whose window holds exactly one control
row distinct from the first row, the fitted data are two distinct points
fitted exactly, with zero residual degrees of freedom (a case of the
insufficient-observations degeneracy named by the claim): the script
computes the finite intercept 1 with NaN residual mean square, and the
curve entry stores that finite local mean beside NaN standard error and
interval — the local mean does not become undefined, refuting the claim
that all three outputs become NaN at such a grid point. -/
theorem C4_mean_survives_degeneracy :
    (codeFit [((2000 : ℚ), some 5), (10, some 1)] 10).map FitStats.b0 =
      some 1
  ∧ (codeFit [((2000 : ℚ), some 5), (10, some 1)] 10).map FitStats.mse =
      some Val.nan
  ∧ (refCurve oPartial [((2000 : ℚ), some 5), (10, some 1)] [10]).getD 0
      zeroPoint = ⟨Val.fin 1, Val.nan, Val.nan, Val.nan⟩
  ∧ Val.fin 1 ≠ Val.nan := by
  refine ⟨?_, ?_, rfl, by decide⟩
  · rw [codeFitDf0_concrete]
    rfl
  · rw [codeFitDf0_concrete]
    rfl

/-- C9 counterexample: the same zero-residual-degrees-of-freedom grid point
produces a PARTIALLY defined reference entry: the loop body ends with the
finite local mean 1 stored beside NaN standard error and NaN interval
bounds, because all three solver calls succeed (the NaNs come from their
return values, not from an exception), so the exception handler never runs
— refuting the claim that every grid point entry is all-or-nothing. -/
theorem C9_partial_entry :
    gridPointRun oPartial
      (fitRows [((2000 : ℚ), some 5), (10, some 1)] 10) zeroPoint =
      ⟨Val.fin 1, Val.nan, Val.nan, Val.nan⟩
  ∧ (⟨Val.fin 1, Val.nan, Val.nan, Val.nan⟩ : RefPoint).zm ≠ Val.nan
  ∧ (⟨Val.fin 1, Val.nan, Val.nan, Val.nan⟩ : RefPoint).zstd = Val.nan
  ∧ (⟨Val.fin 1, Val.nan, Val.nan, Val.nan⟩ : RefPoint) ≠ nanPoint
  ∧ (codeFit [((2000 : ℚ), some 5), (10, some 1)] 10).map FitStats.mse =
      some Val.nan := by
  refine ⟨rfl, by decide, rfl, by decide, ?_⟩
  rw [codeFitDf0_concrete]
  rfl

/-- C5 (amended): if the local mean or the local standard error at the
chosen grid index is NaN, the standardized deviation is NaN; if the local
standard error is zero, the deviation is NaN exactly when the score minus
the mean is NaN or zero, and a signed infinity when that difference is a
nonzero finite value — not NaN; the scorer is total, so the run never
aborts. -/
theorem C5_scorer_propagation (x : List ℚ) (zm zstd : List Val) (age : ℚ)
    (score : Val) :
    (zm.getD (nearestIdx x age) Val.nan = Val.nan →
      normative_model x zm zstd age score = Val.nan)
  ∧ (zstd.getD (nearestIdx x age) Val.nan = Val.nan →
      normative_model x zm zstd age score = Val.nan)
  ∧ (zstd.getD (nearestIdx x age) Val.nan = Val.fin 0 →
      (Val.sub score (zm.getD (nearestIdx x age) Val.nan) = Val.nan →
        normative_model x zm zstd age score = Val.nan)
    ∧ (∀ p : ℚ,
        Val.sub score (zm.getD (nearestIdx x age) Val.nan) = Val.fin p →
        normative_model x zm zstd age score =
          (if p = 0 then Val.nan
           else if 0 < p then Val.pinf else Val.ninf))) := by
  refine ⟨?_, ?_, ?_⟩
  · intro hm
    simp only [normative_model]
    rw [hm, Val.sub_nan, Val.nan_div]
  · intro hs
    simp only [normative_model]
    rw [hs, Val.div_nan]
  · intro hs
    constructor
    · intro hsub
      simp only [normative_model]
      rw [hs, hsub, Val.nan_div]
    · intro p hsub
      simp only [normative_model]
      rw [hs, hsub]
      simp [Val.div]

theorem C5_scorer_propagation_witness :
    ([Val.nan].getD (nearestIdx [0] 0) Val.nan = Val.nan)
  ∧ normative_model [0] [Val.nan] [Val.nan] 0 (Val.fin 1) = Val.nan :=
  ⟨rfl, (C5_scorer_propagation [0] [Val.nan] [Val.nan] 0 (Val.fin 1)).1 rfl⟩

/-- C5 counterexample: with a defined local mean 0, a zero local standard
error, and score 1 at the matching grid index, the scorer returns positive
infinity, a defined value distinct from NaN — refuting the claim that a
zero local standard error always yields an undefined (NaN) standardized
deviation. -/
theorem C5_zero_std_gives_infinity :
    normative_model [0] [Val.fin 0] [Val.fin 0] 0 (Val.fin 1) = Val.pinf
  ∧ Val.pinf ≠ Val.nan := by
  constructor
  · simp [normative_model, nearestIdx, argmin, Val.sub, Val.div]
  · decide

theorem windowIdxAux_shift (xx : ℚ) (l : List (ℚ × Option ℚ)) :
    ∀ k, windowIdxAux xx k l = (windowIdxAux xx 0 l).map (fun i => i + k) := by
  induction l with
  | nil => intro k; rfl
  | cons p t ih =>
    intro k
    by_cases h : |p.1 - xx| < kernel_age
    · simp only [windowIdxAux, if_pos h, List.map_cons]
      rw [ih (k + 1), ih 1, List.map_map]
      refine congrArg₂ List.cons (by omega) ?_
      refine congrArg (fun g => List.map g (windowIdxAux xx 0 t)) ?_
      funext i
      simp only [Function.comp_apply]
      omega
    · simp only [windowIdxAux, if_neg h]
      rw [ih (k + 1), ih 1, List.map_map]
      refine congrArg (fun g => List.map g (windowIdxAux xx 0 t)) ?_
      funext i
      simp only [Function.comp_apply]
      omega

theorem windowIdx_lookup (sel : List (ℚ × Option ℚ)) (xx : ℚ) :
    (windowIdx sel xx).map (fun i => sel.getD i (0, none)) =
      windowRows sel xx := by
  unfold windowIdx windowRows
  induction sel with
  | nil => rfl
  | cons p t ih =>
    by_cases h : |p.1 - xx| < kernel_age
    · rw [List.filter_cons_of_pos (by simpa using h)]
      simp only [windowIdxAux, if_pos h, List.map_cons]
      rw [windowIdxAux_shift xx t 1, List.map_map]
      have he : ((fun i => (p :: t).getD i (0, none)) ∘ fun i => i + 1) =
          (fun i => t.getD i (0, none)) := by
        funext i
        rfl
      rw [he, ih]
      rfl
    · rw [List.filter_cons_of_neg (by simpa using h)]
      simp only [windowIdxAux, if_neg h]
      rw [windowIdxAux_shift xx t 1, List.map_map]
      have he : ((fun i => (p :: t).getD i (0, none)) ∘ fun i => i + 1) =
          (fun i => t.getD i (0, none)) := by
        funext i
        rfl
      rw [he, ih]

theorem fitRows_eq_interleave (sel : List (ℚ × Option ℚ)) (xx : ℚ) :
    fitRows sel xx = (windowRows sel xx).flatMap
      (fun p => [(p.1 - xx, p.2),
        ((sel.getD 0 (0, none)).1 - xx, (sel.getD 0 (0, none)).2)]) := by
  unfold fitRows idxFlat
  rw [List.map_flatMap, ← windowIdx_lookup sel xx, List.flatMap_map]
  rfl

theorem predVarAt_zero_fin (f : FitStats) (m : ℚ)
    (hm : f.mse = Val.fin m) : predVarAt f 0 0 = Val.fin m := by
  simp [predVarAt, hm]

/-- Properties asserted of the reference curve quantities at one grid age,
given the sufficient statistics of the fit there (when its normal matrix is
invertible): the kernel weight is the hard rectangular indicator; the
regression data are the in-window rows, each followed by an interleaved
copy of the first control row (the flattened `np.argwhere` of the `(n, 1)`
weight array), with missing scores then dropped; the stored local mean is
the intercept of that fit; the stored squared local standard error is the
prediction-variance formula at the all-zero design row, which equals the
residual mean square whenever the latter is finite; and the stored interval
is that fit's intercept confidence interval. -/
def curveClaims (sel : List (ℚ × Option ℚ)) (xx : ℚ) (f : FitStats) :
    Prop :=
  (∀ p ∈ sel, kernelWeight p.1 xx =
      (if |p.1 - xx| < kernel_age then 1 else 0))
  ∧ fitRows sel xx = (windowRows sel xx).flatMap
      (fun p => [(p.1 - xx, p.2),
        ((sel.getD 0 (0, none)).1 - xx, (sel.getD 0 (0, none)).2)])
  ∧ usedRows sel xx =
      (fitRows sel xx).filterMap (fun p => p.2.map (fun sc => (p.1, sc)))
  ∧ zmOf sel xx = some f.b0
  ∧ zstdSqOf sel xx = some (predVarAt f 0 0)
  ∧ (∀ m, f.mse = Val.fin m → predVarAt f 0 0 = Val.fin m)
  ∧ zciOf sel xx = some (confIntB0 f)

/-- C1 (amended): at every grid age the builder weights each control row
with the hard rectangular kernel, but the data it regresses (score on
centered age, with intercept) are NOT only the non-zero-weight rows: the
flattened `np.argwhere` of the `(n, 1)` weight array interleaves every
in-window row with a copy of the first control row, and missing scores are
then dropped.  The local mean stored is the intercept of that fit and the
interval is that fit's intercept confidence interval; the stored local
standard error is the prediction-standard-error formula at the all-zero
design row `[0, 0]` — the residual standard error, with the
parameter-uncertainty term dropped — not the prediction standard error at
centered age 0. -/
theorem C1_reference_curve (sel : List (ℚ × Option ℚ)) (xx : ℚ)
    (f : FitStats) (hf : codeFit sel xx = some f) : curveClaims sel xx f := by
  refine ⟨fun p _ => rfl, fitRows_eq_interleave sel xx, rfl, ?_, ?_,
    fun m hm => predVarAt_zero_fin f m hm, ?_⟩
  · unfold zmOf
    rw [hf]
    rfl
  · unfold zstdSqOf
    rw [hf]
    rfl
  · unfold zciOf
    rw [hf]
    rfl

theorem codeFit_concrete :
    codeFit [((9 : ℚ), some 0), (10, some 1), (11, some 0)] 9 =
      some ⟨2/21, 1/7, Val.fin (4/21), 6, 3, 5, 21⟩ := by
  norm_num [codeFit, wlsStats, usedRows, fitRows, idxFlat, windowIdx,
    windowIdxAux, wsum, kernel_age, griddef_age, List.filterMap_cons,
    List.flatMap_cons, List.zip_cons_cons, List.replicate_succ,
    List.getD_cons_succ, List.getD_cons_zero]

theorem specFit_concrete :
    olsStats (specWindowRows [((9 : ℚ), some 0), (10, some 1),
      (11, some 0)] 9) = some ⟨1/3, 0, Val.fin (2/3), 3, 3, 5, 6⟩ := by
  norm_num [olsStats, specWindowRows, windowRows, kernel_age, griddef_age,
    List.filter_cons, List.filterMap_cons]

theorem C1_reference_curve_witness :
    codeFit [((9 : ℚ), some 0), (10, some 1), (11, some 0)] 9 =
      some ⟨2/21, 1/7, Val.fin (4/21), 6, 3, 5, 21⟩
  ∧ curveClaims [((9 : ℚ), some 0), (10, some 1), (11, some 0)] 9
      ⟨2/21, 1/7, Val.fin (4/21), 6, 3, 5, 21⟩ :=
  ⟨codeFit_concrete, C1_reference_curve _ 9 _ codeFit_concrete⟩

/-- C1 counterexample: for the concrete control sample with (age, score)
pairs (9, 0), (10, 1), (11, 0) — whose age grid starts exactly at 9 — the
local mean the code stores at grid age 9 is 2/21, the intercept of the fit
on the six interleaved rows, not 1/3, the intercept of the regression over
the non-zero-weight rows that the claim describes; and the squared local
standard error the code stores is 4/21, the residual mean square of its
fit, not 11/9, the squared prediction standard error of the claimed
window-only fit evaluated at centered age 0 (design row `[1, 0]`). -/
theorem C1_curve_mismatch :
    zmOf [((9 : ℚ), some 0), (10, some 1), (11, some 0)] 9 = some (2/21)
  ∧ (olsStats (specWindowRows [((9 : ℚ), some 0), (10, some 1),
      (11, some 0)] 9)).map FitStats.b0 = some (1/3)
  ∧ ((2 : ℚ)/21) ≠ 1/3
  ∧ zstdSqOf [((9 : ℚ), some 0), (10, some 1), (11, some 0)] 9 =
      some (Val.fin (4/21))
  ∧ (olsStats (specWindowRows [((9 : ℚ), some 0), (10, some 1),
      (11, some 0)] 9)).map (fun g => predVarAt g 1 0) =
      some (Val.fin (11/9))
  ∧ Val.fin ((4 : ℚ)/21) ≠ Val.fin (11/9)
  ∧ (arange 9 (11 + kernel_age) griddef_age).head? = some 9 := by
  refine ⟨?_, ?_, by norm_num, ?_, ?_, ?_, ?_⟩
  · rw [zmOf, codeFit_concrete]
    rfl
  · rw [specFit_concrete]
    rfl
  · rw [zstdSqOf, codeFit_concrete]
    norm_num [predVarAt]
  · rw [specFit_concrete]
    norm_num [predVarAt]
  · simp only [ne_eq, Val.fin.injEq]
    norm_num
  · have hpos : 0 < (arange 9 (11 + kernel_age) griddef_age).length := by
      rw [arange_length]
      refine Int.lt_toNat.mpr ?_
      have : (0 : ℤ) < Int.ceil (((11 : ℚ) + kernel_age - 9) / griddef_age)
          := Int.ceil_pos.mpr (by norm_num [kernel_age, griddef_age])
      exact_mod_cast this
    have hget := arange_get 9 (11 + kernel_age) griddef_age 0 hpos
    rw [List.get_eq_getElem] at hget
    rw [List.head?_eq_getElem?, List.getElem?_eq_getElem hpos, hget]
    norm_num

theorem wsum_ones (w : List ℚ) (rows : List (ℚ × ℚ))
    (hw : ∀ u ∈ w, u = 1) (hl : w.length = rows.length) (f : ℚ × ℚ → ℚ) :
    wsum w f rows = (rows.map f).sum := by
  induction rows generalizing w with
  | nil =>
    cases w with
    | nil => rfl
    | cons u us => simp at hl
  | cons r rs ih =>
    cases w with
    | nil => simp at hl
    | cons u us =>
      have hu : u = 1 := hw u (List.mem_cons_self u us)
      have hrec := ih us (fun v hv => hw v (List.mem_cons_of_mem u hv))
        (by simpa using hl)
      simp only [wsum, List.zip_cons_cons, List.map_cons, List.sum_cons,
        hu, one_mul] at hrec ⊢
      rw [hrec]

theorem wlsStats_ones (w : List ℚ) (rows : List (ℚ × ℚ))
    (hw : ∀ u ∈ w, u = 1) (hl : w.length = rows.length) :
    wlsStats w rows = olsStats rows := by
  unfold wlsStats olsStats
  simp only [wsum_ones w rows hw hl]

/-- Properties asserted for the weighted fit: every in-window row carries
kernel weight 1; a weighted least squares fit whose weights are all 1
coincides with the ordinary least squares fit on the same rows
(coefficients, residual mean square and normal matrix, so also standard
errors and confidence intervals); and the fit the code runs (default unit
weights, since the keyword it passes is not the weights keyword of the
solver) is the OLS fit on `usedRows` — the interleaved, missing-dropped
rows, NOT only the rows inside the kernel window. -/
def olsEquivalence (sel : List (ℚ × Option ℚ)) (xx : ℚ) : Prop :=
  (∀ p ∈ windowRows sel xx, kernelWeight p.1 xx = 1)
  ∧ (∀ (w : List ℚ) (rows : List (ℚ × ℚ)), (∀ u ∈ w, u = 1) →
      w.length = rows.length → wlsStats w rows = olsStats rows)
  ∧ codeFit sel xx = olsStats (usedRows sel xx)

/-- C10 (amended): for a grid age with a nonempty window, each in-window
row has kernel weight 1, a WLS fit with all-ones weights equals OLS on the
same rows, and — because the keyword argument in the call is not the
solver's weights parameter — the fit the code runs is plain OLS with unit
weights on the rows it is given; but those rows are the flattened-argwhere
interleaving (in-window rows plus copies of the first control row), not
only the rows inside the kernel window, and the interleaved copy of the
first row can carry kernel weight 0. -/
theorem C10_fit_is_ols (sel : List (ℚ × Option ℚ)) (xx : ℚ)
    (_hw : windowRows sel xx ≠ []) : olsEquivalence sel xx := by
  refine ⟨?_, fun w rows hw' hl => wlsStats_ones w rows hw' hl, ?_⟩
  · intro p hp
    have hmem := List.mem_filter.mp hp
    have hlt : |p.1 - xx| < kernel_age := by
      simpa using hmem.2
    unfold kernelWeight
    rw [if_pos hlt]
  · unfold codeFit
    exact wlsStats_ones _ _
      (fun u hu => List.eq_of_mem_replicate hu)
      (List.length_replicate _ _)

theorem windowRows_concrete_ne_nil :
    windowRows [((0 : ℚ), some 1), (1, some 2), (3, some 5)] 0 ≠ [] := by
  norm_num [windowRows, kernel_age, griddef_age, List.filter_cons]
  exact List.cons_ne_nil _ _

theorem C10_fit_is_ols_witness :
    windowRows [((0 : ℚ), some 1), (1, some 2), (3, some 5)] 0 ≠ []
  ∧ olsEquivalence [((0 : ℚ), some 1), (1, some 2), (3, some 5)] 0 :=
  ⟨windowRows_concrete_ne_nil, C10_fit_is_ols _ 0 windowRows_concrete_ne_nil⟩

/-- C10 counterexample: at the sample (9, 0), (10, 1), (11, 0) and grid
age 9, the intercept of the fit the code runs is 2/21, while the intercept
of the unweighted least squares fit on only the rows inside the kernel
window is 1/3 — the two fits differ, refuting the claim that the local fit
equals OLS on only the in-window rows; moreover, at the sample
(2000, 1), (10, 1) with grid age 10 the first control row has kernel
weight 0 yet its index 0 appears in the flattened argwhere index list the
code fits, refuting the claim that every fitted row has weight 1. -/
theorem C10_not_window_only :
    (codeFit [((9 : ℚ), some 0), (10, some 1), (11, some 0)] 9).map
      FitStats.b0 = some (2/21)
  ∧ (olsStats (specWindowRows [((9 : ℚ), some 0), (10, some 1),
      (11, some 0)] 9)).map FitStats.b0 = some (1/3)
  ∧ ((2 : ℚ)/21) ≠ 1/3
  ∧ kernelWeight 2000 10 = 0
  ∧ 0 ∈ idxFlat [((2000 : ℚ), some 1), (10, some 1)] 10 := by
  refine ⟨?_, ?_, by norm_num, ?_, ?_⟩
  · rw [codeFit_concrete]
    rfl
  · rw [specFit_concrete]
    rfl
  · norm_num [kernelWeight, kernel_age, griddef_age]
  · have hidx : idxFlat [((2000 : ℚ), some 1), (10, some 1)] 10 = [1, 0] := by
      norm_num [idxFlat, windowIdx, windowIdxAux, kernel_age, griddef_age,
        List.flatMap_cons]
    rw [hidx]
    simp

/-- C8: the global normalizer computes the mean of the score column over
the present entries only, sends every present value v to (v - mean) / std,
and leaves every missing entry missing; stated for any s with
s * s = nanvarD and 0 < s, that is, for s the population standard deviation
of the present entries. -/
theorem C8_global_normalizer (xs : List (Option ℚ)) (s m : ℚ) (i : Nat)
    (hm : nanmean xs = some m) (_hs : s * s = nanvarD xs) (_hpos : 0 < s) :
    (normScore xs s).length = xs.length
  ∧ m = (xs.filterMap id).sum / ((xs.filterMap id).length : ℚ)
  ∧ ((normScore xs s).getD i none = none ↔ xs.getD i none = none)
  ∧ (∀ v, xs.getD i none = some v →
      (normScore xs s).getD i none = some ((v - m) / s)) := by
  have hmval : m = (xs.filterMap id).sum / ((xs.filterMap id).length : ℚ)
      := by
    unfold nanmean at hm
    by_cases h : (xs.filterMap id).length = 0
    · simp [h] at hm
    · simp only [h, if_false] at hm
      exact (Option.some_injective _ hm).symm
  have hns : normScore xs s = xs.map (Option.map fun v => (v - m) / s) := by
    unfold normScore
    rw [hm]
  have hkey : (xs.map (Option.map fun v => (v - m) / s)).getD i none =
      Option.map (fun v => (v - m) / s) (xs.getD i none) :=
    List.getD_map xs none (Option.map fun v => (v - m) / s)
  refine ⟨by rw [hns, List.length_map], hmval, ?_, ?_⟩
  · rw [hns, hkey]
    exact Option.map_eq_none'
  · intro v hv
    rw [hns, hkey, hv]
    rfl

theorem nanmean_concrete : nanmean [some 0, none, some 2] = some 1 := by
  norm_num [nanmean, List.filterMap_cons]

theorem nanvar_concrete : (1 : ℚ) * 1 = nanvarD [some 0, none, some 2] := by
  norm_num [nanvarD, List.filterMap_cons]

theorem C8_global_normalizer_witness :
    nanmean [some 0, none, some 2] = some 1
  ∧ (1 : ℚ) * 1 = nanvarD [some 0, none, some 2]
  ∧ (0 : ℚ) < 1
  ∧ ((normScore [some 0, none, some 2] 1).length =
      ([some (0 : ℚ), none, some 2]).length
    ∧ (1 : ℚ) = (([some (0 : ℚ), none, some 2]).filterMap id).sum /
        ((([some (0 : ℚ), none, some 2]).filterMap id).length : ℚ)
    ∧ ((normScore [some 0, none, some 2] 1).getD 1 none = none ↔
        ([some (0 : ℚ), none, some 2]).getD 1 none = none)
    ∧ (∀ v, ([some (0 : ℚ), none, some 2]).getD 1 none = some v →
        (normScore [some 0, none, some 2] 1).getD 1 none =
          some ((v - 1) / 1))) :=
  ⟨nanmean_concrete, nanvar_concrete, by norm_num,
    C8_global_normalizer [some 0, none, some 2] 1 1 1
      nanmean_concrete nanvar_concrete (by norm_num)⟩

theorem normScore_length (xs : List (Option ℚ)) (s : ℚ) :
    (normScore xs s).length = xs.length := by
  unfold normScore
  cases nanmean xs with
  | none => rfl
  | some m => rw [List.length_map]

theorem normTable_maps (t : List Row) (s : ℚ) :
    (normTable t s).map Row.age = t.map Row.age
  ∧ (normTable t s).map Row.ctr = t.map Row.ctr
  ∧ (normTable t s).map Row.score = normScore (t.map Row.score) s
  ∧ (normTable t s).length = t.length := by
  have h : (normScore (t.map Row.score) s).length = t.length := by
    rw [normScore_length, List.length_map]
  unfold normTable
  generalize normScore (t.map Row.score) s = ns at h ⊢
  induction t generalizing ns with
  | nil =>
    cases ns with
    | nil => exact ⟨rfl, rfl, rfl, rfl⟩
    | cons a b => simp at h
  | cons r rs ih =>
    cases ns with
    | nil => simp at h
    | cons n nss =>
      obtain ⟨h1, h2, h3, h4⟩ := ih nss (by simpa using h)
      exact ⟨by simp [List.zip_cons_cons, h1], by simp [List.zip_cons_cons, h2],
        by simp [List.zip_cons_cons, h3], by simp [List.zip_cons_cons, h4]⟩

theorem pipeline_columns (o : WlsOracle) (s : ℚ) (t : List Row) :
    (pipeline o s t).length = t.length
  ∧ (pipeline o s t).map OutRow.age = t.map Row.age
  ∧ (pipeline o s t).map OutRow.ctr = t.map Row.ctr
  ∧ (pipeline o s t).map OutRow.score = normScore (t.map Row.score) s := by
  obtain ⟨h1, h2, h3, h4⟩ := normTable_maps t s
  simp only [pipeline]
  refine ⟨?_, ?_, ?_, ?_⟩
  · rw [List.length_map, h4]
  · rw [List.map_map,
      show OutRow.age ∘ scoreRow _ _ _ = Row.age from funext fun r => rfl,
      h1]
  · rw [List.map_map,
      show OutRow.ctr ∘ scoreRow _ _ _ = Row.ctr from funext fun r => rfl,
      h2]
  · rw [List.map_map,
      show OutRow.score ∘ scoreRow _ _ _ = Row.score from
        funext fun r => rfl,
      h3]

/-- Shape of the output table: one row per input row, age and ctr columns
unchanged, score column normalized in place, and the rank column computed
from the nmodel column by the cascade. -/
def outputSpec (o : WlsOracle) (s : ℚ) (t : List Row) : Prop :=
    (pipeline o s t).length = t.length
  ∧ (pipeline o s t).map OutRow.age = t.map Row.age
  ∧ (pipeline o s t).map OutRow.ctr = t.map Row.ctr
  ∧ (pipeline o s t).map OutRow.score = normScore (t.map Row.score) s
  ∧ (∀ r ∈ pipeline o s t, r.rank = rankCascade r.nmodel)

/-- C6 (amended): the output table has one row per input row; the age and
control columns are carried over unchanged; the score column holds the
globally normalized score — the raw score column is overwritten in place,
not preserved; and the derived columns are the standardized deviation
(nmodel) and its rank, that is, the output gains two derived columns, not
three. -/
theorem C6_output_table (o : WlsOracle) (s : ℚ) (t : List Row) :
    outputSpec o s t := by
  unfold outputSpec
  obtain ⟨h1, h2, h3, h4⟩ := pipeline_columns o s t
  refine ⟨h1, h2, h3, h4, ?_⟩
  intro r hr
  simp only [pipeline] at hr
  rcases List.mem_map.mp hr with ⟨r0, _, rfl⟩
  rfl

/-- Concrete two-row input table for the output-table counterexample: raw
scores 0 and 2, so the global mean is 1 and the population standard
deviation is 1. -/
def tC6 : List Row := [⟨9, some 0, true⟩, ⟨10, some 2, true⟩]

/-- Concrete oracle for the output-table counterexample; its choice is
irrelevant because the score column is overwritten before any fit runs. -/
def oC6 : WlsOracle :=
  ⟨fun rows =>
      if rows.isEmpty then Except.error () else Except.ok ⟨Val.fin 0⟩,
   fun _ => Except.ok (Val.fin 0),
   fun _ => Except.ok (Val.fin 0, Val.fin 0)⟩

/-- C6 counterexample: on the concrete table the score column of the
output is the normalized pair (-1, 1), not the raw pair (0, 2): the raw
score column is overwritten in place, refuting the claim that every
original column, including the raw score column, is unchanged in the
output. -/
theorem C6_score_column_overwritten :
    (pipeline oC6 1 tC6).map OutRow.score ≠ tC6.map Row.score
  ∧ (1 : ℚ) * 1 = nanvarD (tC6.map Row.score)
  ∧ (0 : ℚ) < 1 := by
  refine ⟨?_, ?_, by norm_num⟩
  · obtain ⟨h1, h2, h3, h4⟩ := pipeline_columns oC6 1 tC6
    rw [h4]
    norm_num [tC6, normScore, nanmean, List.filterMap_cons]
  · norm_num [tC6, nanvarD, List.filterMap_cons]

theorem C6_output_table_witness : outputSpec oC6 1 tC6 :=
  C6_output_table oC6 1 tC6

theorem C7_age_grid_witness : gridSpec [⟨9, some 0, true⟩] :=
  C7_age_grid [⟨9, some 0, true⟩]

theorem C3_subject_scorer_witness :
    ([(⟨9, some 0, true⟩ : Row)] ≠ ([] : List Row))
  ∧ scorerSpec [⟨9, some 0, true⟩] 5 :=
  ⟨List.cons_ne_nil _ _,
    C3_subject_scorer [⟨9, some 0, true⟩] 5 (List.cons_ne_nil _ _)⟩

/-- Concrete oracle for the all-or-nothing witness. -/
def oC9 : WlsOracle :=
  ⟨fun rows =>
      if rows.isEmpty then Except.error () else Except.ok ⟨Val.fin 0⟩,
   fun _ => Except.ok (Val.fin 0),
   fun _ => Except.ok (Val.fin 0, Val.fin 0)⟩

theorem C9_handler_overwrites_witness : handlerSpec oC9 [] :=
  C9_handler_overwrites oC9 []

end NPNM
